import Mathlib

/-!
Formal model of the `studiovailable` availability engine.

The definitions below are a shallow embedding of
`src/availability-app/lib/availability.ts` (slot generation, rule
resolution, session overlay, summary aggregation) and of the pure
decision logic of `src/availability-app/pages/api/chatbot.ts`.

Modelling conventions:
* Instants are minutes since the epoch day 1970-01-01 (a `Nat`); the
  engine only ever compares instants at minute granularity, and every
  datetime the repository constructs is minute-aligned.
* Calendar dates are day numbers (days since 1970-01-01); the date-fns
  helpers `format 'yyyy-MM-dd'`, `format 'HH:mm'`, `parseISO` and
  `getDay` are modelled by explicit Gregorian-calendar functions below.
* `updatedAt` is a numeric timestamp (the code compares
  `new Date(u).getTime()`, a monotone image of the ISO string).
* JS `Array.prototype.sort` is stable (ES2019); it is modelled by a
  stable insertion sort on the comparator `a.updatedAt - b.updatedAt`.
-/

namespace Studiovailable

/-! ### String and calendar utilities (models of date-fns / JS builtins) -/

/-- Split a character list on a separator character (model of JS
`String.prototype.split` restricted to a one-character separator). -/
def splitOnChar (c : Char) : List Char → List (List Char)
  | [] => [[]]
  | x :: xs =>
    match splitOnChar c xs with
    | [] => [[x]]
    | y :: ys => if x = c then [] :: y :: ys else (x :: y) :: ys

/-- Parse a list of decimal digits (model of JS `Number` on the strings the
repository produces; `Number('')` is 0, handled at the call sites). -/
def parseNatChars (l : List Char) : Option Nat :=
  if l.isEmpty then none
  else
    l.foldl
      (fun acc c =>
        match acc with
        | none => none
        | some n => if c.isDigit then some (n * 10 + (c.toNat - 48)) else none)
      (some 0)

/-- `timeToMinutes` from `lib/availability.ts` (lines 123-126):
`time.split(':').map(Number)`, then `hours * 60 + minutes`. -/
def timeToMinutes (time : String) : Nat :=
  match (splitOnChar ':' time.data).map (fun p => (parseNatChars p).getD 0) with
  | h :: m :: _ => h * 60 + m
  | _ => 0

/-- Zero-pad a natural number to two decimal digits. -/
def pad2 (n : Nat) : String :=
  if n < 10 then "0" ++ toString n else toString n

/-- Zero-pad a natural number to four decimal digits. -/
def pad4 (n : Nat) : String :=
  if n < 10 then "000" ++ toString n
  else if n < 100 then "00" ++ toString n
  else if n < 1000 then "0" ++ toString n
  else toString n

/-- date-fns `format(t, 'HH:mm')` for an instant `m` minutes after
midnight. -/
def formatHHmm (m : Nat) : String :=
  pad2 (m / 60) ++ ":" ++ pad2 (m % 60)

/-- Civil date (year, month, day) of a day number (days since
1970-01-01), proleptic Gregorian calendar. -/
def civilFromDays (z : Nat) : Nat × Nat × Nat :=
  let z' := z + 719468
  let era := z' / 146097
  let doe := z' % 146097
  let yoe := (doe - doe / 1460 + doe / 36524 - doe / 146096) / 365
  let y := yoe + era * 400
  let doy := doe - (365 * yoe + yoe / 4 - yoe / 100)
  let mp := (5 * doy + 2) / 153
  let d := doy - (153 * mp + 2) / 5 + 1
  let m := if mp < 10 then mp + 3 else mp - 9
  (if m ≤ 2 then y + 1 else y, m, d)

/-- Day number (days since 1970-01-01) of a civil date, proleptic
Gregorian calendar (valid for dates on or after 1970-01-01). -/
def daysFromCivil (y m d : Nat) : Nat :=
  let y' := if m ≤ 2 then y - 1 else y
  let era := y' / 400
  let yoe := y' % 400
  let doy := (153 * (if 2 < m then m - 3 else m + 9) + 2) / 5 + d - 1
  let doe := yoe * 365 + yoe / 4 - yoe / 100 + doy
  era * 146097 + doe - 719468

/-- date-fns `format(t, 'yyyy-MM-dd')` for the start of a day number. -/
def formatDate (day : Nat) : String :=
  match civilFromDays day with
  | (y, m, d) => pad4 y ++ "-" ++ pad2 m ++ "-" ++ pad2 d

/-- Parse a `YYYY-MM-DD` string to a day number (model of date-fns
`parseISO` on a date-only string, divided by one day). -/
def parseDateStr (s : String) : Option Nat :=
  match (splitOnChar '-' s.data).map parseNatChars with
  | [some y, some m, some d] => some (daysFromCivil y m d)
  | _ => none

/-- Parse an ISO datetime string (`YYYY-MM-DD` or `YYYY-MM-DDTHH:mm[:ss]`)
to minutes since the epoch (model of date-fns `parseISO` at minute
granularity; an unparseable string is `none`, and the Invalid-Date `NaN`
comparisons of the code are modelled by the `none` branches of its
callers, which all yield `false`). -/
def parseISOMin (s : String) : Option Nat :=
  match splitOnChar 'T' s.data with
  | [d] => (parseDateStr ⟨d⟩).map (1440 * ·)
  | [d, t] => (parseDateStr ⟨d⟩).map (fun dd => 1440 * dd + timeToMinutes ⟨t⟩)
  | _ => none

/-- JS UTF-16 lexicographic string comparison (`s < t` on strings),
restricted to the Basic Multilingual Plane the repository uses. -/
def charListLt : List Char → List Char → Bool
  | [], [] => false
  | [], _ :: _ => true
  | _ :: _, [] => false
  | a :: as, b :: bs =>
    if a.toNat < b.toNat then true
    else if b.toNat < a.toNat then false
    else charListLt as bs

/-- JS `String.prototype.toLowerCase` (ASCII fragment). -/
def lowerStr (s : String) : String := ⟨s.data.map Char.toLower⟩

/-- date-fns `getDay` on the start of a day number: weekday, 0 = Sunday
(1970-01-01 was a Thursday, weekday 4). -/
def getDayOfWeek (day : Nat) : Nat := (day + 4) % 7

/-- `DAY_MAP` from `lib/availability.ts` (lines 34-42). -/
def dayMap (n : Nat) : String :=
  match n with
  | 0 => "Sun"
  | 1 => "Mon"
  | 2 => "Tue"
  | 3 => "Wed"
  | 4 => "Thu"
  | 5 => "Fri"
  | 6 => "Sat"
  | _ => ""

/-! ### Data model (`lib/airtable.ts` interfaces) -/

/-- `SlotStatus` from `lib/availability.ts` line 18. -/
inductive SlotStatus where
  | Available | Maybe | Unavailable | Booked | Blank
  deriving DecidableEq, Repr

/-- The status of an `AvailabilityRule` (`'Available' | 'Maybe' |
'Unavailable'`, `lib/airtable.ts` line 24). -/
inductive RuleStatus where
  | Available | Maybe | Unavailable
  deriving DecidableEq, Repr

/-- A rule status used as a slot status (`slot.status = rule.status`). -/
def RuleStatus.toSlot : RuleStatus → SlotStatus
  | .Available => .Available
  | .Maybe => .Maybe
  | .Unavailable => .Unavailable

/-- `ruleType` discriminator (`'one-time' | 'recurring'`). -/
inductive RuleType where
  | one_time | recurring
  deriving DecidableEq, Repr

/-- `source` provenance tag (`'web_app' | 'chatbot' | 'booking'`). -/
inductive RuleSource where
  | web_app | chatbot | booking
  deriving DecidableEq, Repr

/-- `AvailabilityRule` from `lib/airtable.ts` lines 20-35 (the fields the
engine reads; `engineerName` is presentation-only and omitted). -/
structure AvailabilityRule where
  id : String
  engineerId : String
  status : RuleStatus
  ruleType : RuleType
  startDateTime : Option String := none
  endDateTime : Option String := none
  startTime : Option String := none
  endTime : Option String := none
  recurrenceDays : Option (List String) := none
  effectiveFrom : Option String := none
  effectiveUntil : Option String := none
  source : RuleSource
  updatedAt : Nat
  deriving DecidableEq, Repr

/-- `Session` from `lib/airtable.ts` lines 37-44. -/
structure Session where
  id : String
  title : String
  engineerId : String
  start : String
  «end» : String
  deriving DecidableEq, Repr

/-- `TimeSlot` from `lib/availability.ts` lines 20-26 (`datetime` is kept
as the slot-start instant in minutes; the code stores its ISO rendering
and re-parses it). -/
structure TimeSlot where
  time : String
  datetime : Nat
  status : SlotStatus
  ruleId : Option String := none
  sessionId : Option String := none
  deriving DecidableEq, Repr

/-- `DayAvailability` from `lib/availability.ts` lines 28-32. -/
structure DayAvailability where
  date : String
  dayName : String
  slots : List TimeSlot
  deriving DecidableEq, Repr

/-! ### Rule resolution engine (`lib/availability.ts`) -/

/-- The freshly generated slot `i` of a day (the body of the
`generateDaySlots` loop, lines 49-56). -/
def baseSlot (day i : Nat) : TimeSlot :=
  { time := formatHHmm (30 * i)
    datetime := 1440 * day + 30 * i
    status := .Blank }

/-- `generateDaySlots` (lines 45-59): the 48 thirty-minute slots of a
day, each initialised to `Blank` with no rule/session association. -/
def generateDaySlots (day : Nat) : List TimeSlot :=
  (List.range 48).map (baseSlot day)

/-- `recurringRuleApplies` (lines 62-83): does a recurring rule apply to
a calendar day (weekday membership and effective date range)?  A falsy
`recurrenceDays` / `effectiveFrom` / `effectiveUntil` (absent or, for the
date bounds, unparseable — Invalid Date comparisons are always false) is
modelled by the corresponding `none` / fall-through branches. -/
def recurringRuleApplies (rule : AvailabilityRule) (day : Nat) : Bool :=
  if rule.ruleType ≠ .recurring then false
  else
    match rule.recurrenceDays with
    | none => false
    | some ds =>
      if ds.isEmpty then false
      else
        let dayName := dayMap (getDayOfWeek day)
        if ¬ ds.contains dayName then false
        else
          let fromOk :=
            match rule.effectiveFrom with
            | none => true
            | some ef =>
              match parseISOMin ef with
              | none => true
              | some m => ¬ (1440 * day < m)
          let untilOk :=
            match rule.effectiveUntil with
            | none => true
            | some eu =>
              match parseISOMin eu with
              | none => true
              | some m => ¬ (1440 * day > m)
          fromOk && untilOk

/-- `oneTimeRuleApplies` (lines 86-99): strict open-interval overlap of
the rule's `[startDateTime, endDateTime)` with the slot's interval. -/
def oneTimeRuleApplies (rule : AvailabilityRule) (slotStart slotEnd : Nat) : Bool :=
  if rule.ruleType ≠ .one_time then false
  else
    match rule.startDateTime, rule.endDateTime with
    | some s, some e =>
      if s = "" ∨ e = "" then false
      else
        match parseISOMin s, parseISOMin e with
        | some ruleStart, some ruleEnd =>
          decide (slotStart < ruleEnd) && decide (slotEnd > ruleStart)
        | _, _ => false
    | _, _ => false

/-- `recurringSlotApplies` (lines 102-121): does the slot's time of day
fall in the rule's `[startTime, endTime)` window, treating
`endMinutes <= startMinutes` as a midnight wrap?  The `date` parameter is
kept from the source signature; the body never reads it. -/
def recurringSlotApplies (rule : AvailabilityRule) (_date : Nat) (slotTime : String) : Bool :=
  match rule.startTime, rule.endTime with
  | some st, some et =>
    if st = "" ∨ et = "" then false
    else
      let slotMinutes := timeToMinutes slotTime
      let startMinutes := timeToMinutes st
      let endMinutes := timeToMinutes et
      if endMinutes ≤ startMinutes then
        decide (slotMinutes ≥ startMinutes) || decide (slotMinutes < endMinutes)
      else
        decide (slotMinutes ≥ startMinutes) && decide (slotMinutes < endMinutes)
  | _, _ => false

/-- `sessionCoversSlot` (lines 129-138): same strict overlap test as
one-time rules, applied to a session's `[start, end)`. -/
def sessionCoversSlot (session : Session) (slotStart slotEnd : Nat) : Bool :=
  match parseISOMin session.start, parseISOMin session.«end» with
  | some sessionStart, some sessionEnd =>
    decide (slotStart < sessionEnd) && decide (slotEnd > sessionStart)
  | _, _ => false

/-- Stable insertion of a rule into a list sorted ascending by
`updatedAt` (the earlier-listed rule goes first on ties, as JS stable
sort does). -/
def insertByUpdatedAt (r : AvailabilityRule) : List AvailabilityRule → List AvailabilityRule
  | [] => [r]
  | x :: xs =>
    if r.updatedAt ≤ x.updatedAt then r :: x :: xs else x :: insertByUpdatedAt r xs

/-- `[...rules].sort((a, b) => a.updatedAt - b.updatedAt)` (lines
156-158): stable ascending sort by `updatedAt`. -/
def sortRules : List AvailabilityRule → List AvailabilityRule
  | [] => []
  | x :: xs => insertByUpdatedAt x (sortRules xs)

/-- One iteration of the rule loop (lines 166-182): the one-time check
and the recurring check each unconditionally overwrite `status` and
`ruleId` on a match. -/
def applyRuleStep (day slotStart slotEnd : Nat) (slot : TimeSlot)
    (rule : AvailabilityRule) : TimeSlot :=
  let slot1 :=
    if rule.ruleType = .one_time ∧ oneTimeRuleApplies rule slotStart slotEnd then
      { slot with status := rule.status.toSlot, ruleId := some rule.id }
    else slot
  if rule.ruleType = .recurring ∧ recurringRuleApplies rule day ∧
      recurringSlotApplies rule day slot.time then
    { slot1 with status := rule.status.toSlot, ruleId := some rule.id }
  else slot1

/-- The session loop (lines 184-191): the first covering session forces
`Booked` and sets `sessionId`, then `break`s. -/
def applySessions (slotStart slotEnd : Nat) (slot : TimeSlot) :
    List Session → TimeSlot
  | [] => slot
  | s :: rest =>
    if sessionCoversSlot s slotStart slotEnd then
      { slot with status := .Booked, sessionId := some s.id }
    else applySessions slotStart slotEnd slot rest

/-- The body of the day loop of `calculateAvailability` (lines 151-198):
generate the day's slots, apply the recency-sorted rules to each slot,
then overlay sessions. -/
def resolveDay (rules : List AvailabilityRule) (sessions : List Session)
    (day : Nat) : DayAvailability :=
  let sortedRules := sortRules rules
  { date := formatDate day
    dayName := dayMap (getDayOfWeek day)
    slots :=
      (generateDaySlots day).map fun slot =>
        let slotStart := slot.datetime
        let slotEnd := slotStart + 30
        applySessions slotStart slotEnd
          (sortedRules.foldl (applyRuleStep day slotStart slotEnd) slot)
          sessions }

/-- `calculateAvailability` (lines 141-204).  The `while` loop starts at
`startOfDay(startDate)` and runs through `endOfDay(endDate)`, i.e. one
iteration per day number from `startDate / 1440` through
`endDate / 1440` inclusive (none when the start day is after the end
day, matching the loop guard). -/
def calculateAvailability (rules : List AvailabilityRule)
    (sessions : List Session) (startDate endDate : Nat) : List DayAvailability :=
  let startDay := startDate / 1440
  let endDay := endDate / 1440
  (List.range (endDay + 1 - startDay)).map fun k =>
    resolveDay rules sessions (startDay + k)

/-! ### Summary aggregator (`lib/availability.ts` lines 206-279) -/

/-- `AvailabilitySummary` (lines 207-213). -/
structure AvailabilitySummary where
  available : List String := []
  maybe : List String := []
  unavailable : List String := []
  booked : List String := []
  not_set : List String := []
  deriving DecidableEq, Repr

/-- The five summary buckets. -/
inductive Bucket where
  | available | maybe | unavailable | booked | not_set
  deriving DecidableEq, Repr

/-- The list stored in a given bucket of a summary. -/
def AvailabilitySummary.bucketList (s : AvailabilitySummary) : Bucket → List String
  | .available => s.available
  | .maybe => s.maybe
  | .unavailable => s.unavailable
  | .booked => s.booked
  | .not_set => s.not_set

/-- `summary.<bucket>.push(engineerName)`. -/
def pushBucket (s : AvailabilitySummary) (b : Bucket) (name : String) :
    AvailabilitySummary :=
  match b with
  | .available => { s with available := s.available ++ [name] }
  | .maybe => { s with maybe := s.maybe ++ [name] }
  | .unavailable => { s with unavailable := s.unavailable ++ [name] }
  | .booked => { s with booked := s.booked ++ [name] }
  | .not_set => { s with not_set := s.not_set ++ [name] }

/-- The per-engineer body of `getAvailabilitySummary`'s loop (lines
232-276): find the target day, filter the slots to the window, then run
the if/else-if classification chain. -/
def classifyEngineer (days : List DayAvailability) (targetDate : String)
    (startMinutes endMinutes : Nat) : Bucket :=
  match days.find? (fun d => d.date = targetDate) with
  | none => .not_set
  | some targetDay =>
    let relevantSlots := targetDay.slots.filter fun slot =>
      decide (timeToMinutes slot.time ≥ startMinutes) &&
      decide (timeToMinutes slot.time < endMinutes)
    if relevantSlots.isEmpty then .not_set
    else
      let statuses := relevantSlots.map (·.status)
      if statuses.contains .Booked then .booked
      else if statuses.contains .Unavailable then .unavailable
      else if statuses.any (· = .Blank) then
        if statuses.all (· = .Blank) then .not_set
        else if statuses.contains .Maybe then .maybe
        else if statuses.contains .Available then .available
        else .not_set
      else if statuses.contains .Maybe then .maybe
      else if statuses.all (· = .Available) then .available
      else .not_set

/-- `getAvailabilitySummary` (lines 215-279), over the entry sequence of
the input `Map` (JS `Map` iterates in insertion order). -/
def getAvailabilitySummary (entries : List (String × List DayAvailability))
    (targetDate startTime endTime : String) : AvailabilitySummary :=
  let startMinutes := timeToMinutes startTime
  let endMinutes := timeToMinutes endTime
  entries.foldl
    (fun summary e =>
      pushBucket summary (classifyEngineer e.2 targetDate startMinutes endMinutes) e.1)
    {}

/-! ### Chatbot write endpoint (`pages/api/chatbot.ts`) -/

/-- An engineer row, as read by the chatbot handler (`lib/airtable.ts`
`Engineer`, the two fields the lookup uses). -/
structure Engineer where
  id : String
  name : String
  deriving DecidableEq, Repr

/-- `ChatbotRequest` (`pages/api/chatbot.ts` lines 9-20).  Absent JSON
fields are `none`; the handler's falsy checks also treat the empty
string as absent. -/
structure ChatbotRequest where
  engineer : String
  status : RuleStatus
  date : Option String := none
  start_time : Option String := none
  end_time : Option String := none
  days : Option (List String) := none
  effective_from : Option String := none
  effective_until : Option String := none
  deriving DecidableEq, Repr

/-- The argument the handler passes to `createAvailabilityRule`
(`Omit<AvailabilityRule, 'id' | 'updatedAt'>`). -/
structure NewRule where
  engineerId : String
  status : RuleStatus
  ruleType : RuleType
  startDateTime : Option String := none
  endDateTime : Option String := none
  startTime : Option String := none
  endTime : Option String := none
  recurrenceDays : Option (List String) := none
  effectiveFrom : Option String := none
  effectiveUntil : Option String := none
  source : RuleSource
  deriving DecidableEq, Repr

/-- Outcome of the chatbot handler's decision logic: an HTTP error
status, or the rule it writes to the store. -/
inductive ChatbotResult where
  | err (httpStatus : Nat)
  | created (rule : NewRule)
  deriving DecidableEq, Repr

/-- JS truthiness of an optional string field (`undefined` and `''` are
falsy). -/
def truthyStr : Option String → Bool
  | none => false
  | some s => s ≠ ""

/-- The decision logic of the chatbot POST handler (`pages/api/chatbot.ts`
lines 41-139), with the store reads/writes factored out: `engineers` is
the result of `getEngineers()`, and a `created` result is the argument
the handler passes to `createAvailabilityRule`. -/
def chatbotHandler (engineers : List Engineer) (body : ChatbotRequest) :
    ChatbotResult :=
  if body.engineer = "" then .err 400
  else
    match engineers.find? (fun e =>
        lowerStr e.name = lowerStr body.engineer ∨ e.id = body.engineer) with
    | none => .err 404
    | some engineer =>
      let isRecurring :=
        match body.days with
        | none => false
        | some ds => !ds.isEmpty
      if isRecurring then
        if ¬ (truthyStr body.start_time ∧ truthyStr body.end_time) then .err 400
        else
          .created
            { engineerId := engineer.id
              status := body.status
              ruleType := .recurring
              startTime := body.start_time
              endTime := body.end_time
              recurrenceDays := body.days
              effectiveFrom := body.effective_from
              effectiveUntil := body.effective_until
              source := .chatbot }
      else
        if ¬ (truthyStr body.date ∧ truthyStr body.start_time ∧
            truthyStr body.end_time) then .err 400
        else
          match body.date, body.start_time, body.end_time with
          | some date, some st, some et =>
            let startDateTime := date ++ "T" ++ st ++ ":00"
            let endDateTime := date ++ "T" ++ et ++ ":00"
            -- `if (body.end_time < body.start_time)` — lexical comparison
            if charListLt et.data st.data then
              match parseDateStr date with
              | none => .err 500   -- format(Invalid Date) throws, caught at line 140
              | some d =>
                let nextDay := formatDate ((1440 * d + 24 * 60) / 1440)
                .created
                  { engineerId := engineer.id
                    status := body.status
                    ruleType := .one_time
                    startDateTime := some startDateTime
                    endDateTime := some (nextDay ++ "T" ++ et ++ ":00")
                    source := .chatbot }
            else
              .created
                { engineerId := engineer.id
                  status := body.status
                  ruleType := .one_time
                  startDateTime := some startDateTime
                  endDateTime := some endDateTime
                  source := .chatbot }
          | _, _, _ => .err 400

/-! ### Derived notions used by the verification -/

/-- The combined applicability test of the rule loop (lines 166-181) for
a rule on a slot with interval `[slotStart, slotEnd)` and wall-clock
`time`: the one-time check or the recurring check fires. -/
def ruleMatchCond (r : AvailabilityRule) (day slotStart slotEnd : Nat)
    (time : String) : Bool :=
  (decide (r.ruleType = .one_time) && oneTimeRuleApplies r slotStart slotEnd) ||
  (decide (r.ruleType = .recurring) && recurringRuleApplies r day &&
    recurringSlotApplies r day time)

/-- "Rule `r` is applicable to slot `i` of day `day`": the applicability
test of the rule loop, instantiated at the day's freshly generated slot
`i` (whose interval is `[1440*day + 30*i, 1440*day + 30*i + 30)` and
whose `time` is `formatHHmm (30*i)`). -/
def ruleAppliesToSlot (r : AvailabilityRule) (day i : Nat) : Bool :=
  ruleMatchCond r day (1440 * day + 30 * i) (1440 * day + 30 * i + 30)
    (formatHHmm (30 * i))

/-- Slot `i` of a resolved day: the generated slot after the rule loop
and the session loop (the per-slot body of `calculateAvailability`). -/
def resolveSlot (rules : List AvailabilityRule) (sessions : List Session)
    (day i : Nat) : TimeSlot :=
  applySessions (1440 * day + 30 * i) (1440 * day + 30 * i + 30)
    ((sortRules rules).foldl
      (applyRuleStep day (1440 * day + 30 * i) (1440 * day + 30 * i + 30))
      (baseSlot day i))
    sessions

/-- All engineer names of a summary, buckets concatenated. -/
def allNames (s : AvailabilitySummary) : List String :=
  s.available ++ s.maybe ++ s.unavailable ++ s.booked ++ s.not_set

/-- Modelled from the spec (§4.3): the exact precedence over the window's
slot statuses, evaluated in order with first match winning. -/
def specPrecedence (statuses : List SlotStatus) : Bucket :=
  if ∃ s ∈ statuses, s = .Booked then .booked
  else if ∃ s ∈ statuses, s = .Unavailable then .unavailable
  else if ∃ s ∈ statuses, s = .Blank then
    if ∀ s ∈ statuses, s = .Blank then .not_set
    else if ∃ s ∈ statuses, s = .Maybe then .maybe
    else if ∃ s ∈ statuses, s = .Available then .available
    else .not_set
  else if ∃ s ∈ statuses, s = .Maybe then .maybe
  else if ∀ s ∈ statuses, s = .Available then .available
  else .not_set

/-- Modelled from the spec (§4.3): locate the DayAvailability for the
target date (absent ⇒ `not_set`), select the slots whose time falls in
`[startTime, endTime)` by minute-of-day comparison (none ⇒ `not_set`),
then apply the precedence. -/
def specClassify (days : List DayAvailability) (targetDate startTime endTime : String) :
    Bucket :=
  match days.find? (fun d => d.date = targetDate) with
  | none => .not_set
  | some targetDay =>
    let windowSlots := targetDay.slots.filter fun slot =>
      decide (timeToMinutes startTime ≤ timeToMinutes slot.time ∧
        timeToMinutes slot.time < timeToMinutes endTime)
    if windowSlots = [] then .not_set
    else specPrecedence (windowSlots.map (·.status))

/-- The 48 wall-clock slot labels of a day, zero-padded `"HH:mm"` at
contiguous 30-minute boundaries starting at 00:00. -/
def canonicalSlotTimes : List String :=
  ["00:00", "00:30", "01:00", "01:30", "02:00", "02:30", "03:00", "03:30",
   "04:00", "04:30", "05:00", "05:30", "06:00", "06:30", "07:00", "07:30",
   "08:00", "08:30", "09:00", "09:30", "10:00", "10:30", "11:00", "11:30",
   "12:00", "12:30", "13:00", "13:30", "14:00", "14:30", "15:00", "15:30",
   "16:00", "16:30", "17:00", "17:30", "18:00", "18:30", "19:00", "19:30",
   "20:00", "20:30", "21:00", "21:30", "22:00", "22:30", "23:00", "23:30"]

/-! ### Concrete instances used by the witnesses and counterexamples -/

/-- A one-time Available rule on 1970-01-01 00:00-01:00, updated at 1. -/
def wRuleOneTime : AvailabilityRule :=
  { id := "R1", engineerId := "e1", status := .Available, ruleType := .one_time,
    startDateTime := some "1970-01-01T00:00:00",
    endDateTime := some "1970-01-01T01:00:00",
    source := .web_app, updatedAt := 1 }

/-- A recurring Maybe rule on Thursdays 00:00-01:00, updated at 5
(1970-01-01, day 0, is a Thursday). -/
def wRuleRecurring : AvailabilityRule :=
  { id := "R2", engineerId := "e1", status := .Maybe, ruleType := .recurring,
    startTime := some "00:00", endTime := some "01:00",
    recurrenceDays := some ["Thu"], source := .chatbot, updatedAt := 5 }

/-- An overnight recurring rule, Mondays 22:00-04:00. -/
def wRuleOvernight : AvailabilityRule :=
  { id := "N", engineerId := "e1", status := .Available, ruleType := .recurring,
    startTime := some "22:00", endTime := some "04:00",
    recurrenceDays := some ["Mon"], source := .web_app, updatedAt := 0 }

/-- A recurring rule with equal start and end time, Mondays. -/
def wRuleFullDay : AvailabilityRule :=
  { id := "F", engineerId := "e1", status := .Unavailable, ruleType := .recurring,
    startTime := some "09:00", endTime := some "09:00",
    recurrenceDays := some ["Mon"], source := .web_app, updatedAt := 0 }

/-- A session covering 1970-01-01 00:15-00:45. -/
def wSession : Session :=
  { id := "S1", title := "booking", engineerId := "e1",
    start := "1970-01-01T00:15:00", «end» := "1970-01-01T00:45:00" }

/-- The resolved day used by the frame-effect witness. -/
def wEmptyDay : DayAvailability := resolveDay [] [] 0

/-- The booked slot produced by resolving day 0 against `wSession`. -/
def wBookedSlot : TimeSlot :=
  { time := "00:00", datetime := 0, status := .Booked, sessionId := some "S1" }

/-- A resolved day fed to the summary witnesses: 1970-01-01 with slot
00:00 Available (from `wRuleOneTime`'s window truncated to one slot). -/
def wSummaryDays : List DayAvailability :=
  calculateAvailability [wRuleOneTime] [] 0 0

/-- The engineer directory used by the chatbot witness. -/
def wEngineers : List Engineer := [{ id := "rec1", name := "Alice" }]

/-- An overnight one-time chatbot request (end time lexically before
start time). -/
def wChatbotOvernight : ChatbotRequest :=
  { engineer := "alice", status := .Unavailable, date := some "2024-03-10",
    start_time := some "22:00", end_time := some "02:00" }

/-- The rule the chatbot handler creates for `wChatbotOvernight`. -/
def wChatbotOvernightRule : NewRule :=
  { engineerId := "rec1", status := .Unavailable, ruleType := .one_time,
    startDateTime := some "2024-03-10T22:00:00",
    endDateTime := some "2024-03-11T02:00:00",
    source := .chatbot }

/-! ### Structural lemmas about the engine -/

theorem applyRuleStep_time (day ss se : Nat) (slot : TimeSlot) (r : AvailabilityRule) :
    (applyRuleStep day ss se slot r).time = slot.time := by
  simp only [applyRuleStep]
  split <;> split <;> rfl

theorem applyRuleStep_datetime (day ss se : Nat) (slot : TimeSlot) (r : AvailabilityRule) :
    (applyRuleStep day ss se slot r).datetime = slot.datetime := by
  simp only [applyRuleStep]
  split <;> split <;> rfl

theorem applyRuleStep_sessionId (day ss se : Nat) (slot : TimeSlot) (r : AvailabilityRule) :
    (applyRuleStep day ss se slot r).sessionId = slot.sessionId := by
  simp only [applyRuleStep]
  split <;> split <;> rfl

theorem foldl_applyRuleStep_time (day ss se : Nat) (rs : List AvailabilityRule)
    (slot : TimeSlot) :
    (rs.foldl (applyRuleStep day ss se) slot).time = slot.time := by
  induction rs generalizing slot with
  | nil => rfl
  | cons r rs ih => rw [List.foldl_cons, ih, applyRuleStep_time]

theorem foldl_applyRuleStep_datetime (day ss se : Nat) (rs : List AvailabilityRule)
    (slot : TimeSlot) :
    (rs.foldl (applyRuleStep day ss se) slot).datetime = slot.datetime := by
  induction rs generalizing slot with
  | nil => rfl
  | cons r rs ih => rw [List.foldl_cons, ih, applyRuleStep_datetime]

theorem foldl_applyRuleStep_sessionId (day ss se : Nat) (rs : List AvailabilityRule)
    (slot : TimeSlot) :
    (rs.foldl (applyRuleStep day ss se) slot).sessionId = slot.sessionId := by
  induction rs generalizing slot with
  | nil => rfl
  | cons r rs ih => rw [List.foldl_cons, ih, applyRuleStep_sessionId]

theorem applySessions_time (ss se : Nat) (slot : TimeSlot) (sessions : List Session) :
    (applySessions ss se slot sessions).time = slot.time := by
  induction sessions with
  | nil => rfl
  | cons s rest ih =>
    simp only [applySessions]
    split
    · rfl
    · exact ih

theorem applySessions_datetime (ss se : Nat) (slot : TimeSlot) (sessions : List Session) :
    (applySessions ss se slot sessions).datetime = slot.datetime := by
  induction sessions with
  | nil => rfl
  | cons s rest ih =>
    simp only [applySessions]
    split
    · rfl
    · exact ih

theorem applySessions_ruleId (ss se : Nat) (slot : TimeSlot) (sessions : List Session) :
    (applySessions ss se slot sessions).ruleId = slot.ruleId := by
  induction sessions with
  | nil => rfl
  | cons s rest ih =>
    simp only [applySessions]
    split
    · rfl
    · exact ih

theorem applySessions_of_covered (ss se : Nat) (slot : TimeSlot)
    (sessions : List Session) (h : ∃ s ∈ sessions, sessionCoversSlot s ss se = true) :
    (applySessions ss se slot sessions).status = .Booked ∧
    ∃ s ∈ sessions, sessionCoversSlot s ss se = true ∧
      (applySessions ss se slot sessions).sessionId = some s.id := by
  induction sessions with
  | nil => simp at h
  | cons s rest ih =>
    by_cases hc : sessionCoversSlot s ss se = true
    · refine ⟨by simp [applySessions, hc], s, List.mem_cons_self s rest, hc, ?_⟩
      simp [applySessions, hc]
    · have hrest : ∃ t ∈ rest, sessionCoversSlot t ss se = true := by
        obtain ⟨t, ht, hcov⟩ := h
        rcases List.mem_cons.mp ht with rfl | htr
        · exact absurd hcov hc
        · exact ⟨t, htr, hcov⟩
      have hstep : applySessions ss se slot (s :: rest) = applySessions ss se slot rest := by
        simp [applySessions, hc]
      obtain ⟨h1, t, ht, hcov, h2⟩ := ih hrest
      exact ⟨hstep ▸ h1, t, List.mem_cons_of_mem s ht, hcov, hstep ▸ h2⟩

theorem applySessions_of_not_covered (ss se : Nat) (slot : TimeSlot)
    (sessions : List Session) (h : ∀ s ∈ sessions, sessionCoversSlot s ss se = false) :
    applySessions ss se slot sessions = slot := by
  induction sessions with
  | nil => rfl
  | cons s rest ih =>
    have hc := h s (List.mem_cons_self s rest)
    simp only [applySessions, hc]
    simp only [Bool.false_eq_true, if_false]
    exact ih fun t ht => h t (List.mem_cons_of_mem s ht)

theorem mem_insertByUpdatedAt (a r : AvailabilityRule) (l : List AvailabilityRule) :
    a ∈ insertByUpdatedAt r l ↔ a = r ∨ a ∈ l := by
  induction l with
  | nil => simp [insertByUpdatedAt]
  | cons x xs ih =>
    simp only [insertByUpdatedAt]
    split
    · simp
    · simp only [List.mem_cons, ih]
      tauto

theorem mem_sortRules (a : AvailabilityRule) (l : List AvailabilityRule) :
    a ∈ sortRules l ↔ a ∈ l := by
  induction l with
  | nil => simp [sortRules]
  | cons x xs ih =>
    simp only [sortRules, mem_insertByUpdatedAt, ih, List.mem_cons]

theorem applyRuleStep_of_applies (day ss se : Nat) (slot : TimeSlot)
    (r : AvailabilityRule) (h : ruleMatchCond r day ss se slot.time = true) :
    applyRuleStep day ss se slot r =
      { slot with status := r.status.toSlot, ruleId := some r.id } := by
  simp only [ruleMatchCond, Bool.or_eq_true, Bool.and_eq_true, decide_eq_true_eq] at h
  rcases h with ⟨h1, h2⟩ | ⟨⟨h1, h2⟩, h3⟩
  · have hc : r.ruleType = .one_time ∧ oneTimeRuleApplies r ss se = true := ⟨h1, h2⟩
    have hnr : ¬ (r.ruleType = .recurring ∧ recurringRuleApplies r day = true ∧
        recurringSlotApplies r day slot.time = true) := by
      rintro ⟨hr, -⟩
      rw [h1] at hr
      cases hr
    simp only [applyRuleStep, if_neg hnr, if_pos hc]
  · have hc : r.ruleType = .recurring ∧ recurringRuleApplies r day = true ∧
        recurringSlotApplies r day slot.time = true := ⟨h1, h2, h3⟩
    have hno : ¬ (r.ruleType = .one_time ∧ oneTimeRuleApplies r ss se = true) := by
      rintro ⟨hr, -⟩
      rw [h1] at hr
      cases hr
    simp only [applyRuleStep, if_neg hno, if_pos hc]

theorem applyRuleStep_of_not_applies (day ss se : Nat) (slot : TimeSlot)
    (r : AvailabilityRule) (h : ruleMatchCond r day ss se slot.time = false) :
    applyRuleStep day ss se slot r = slot := by
  have h1 : ¬ (r.ruleType = .one_time ∧ oneTimeRuleApplies r ss se = true) := by
    rintro ⟨ha, hb⟩
    simp [ruleMatchCond, ha, hb] at h
  have h2 : ¬ (r.ruleType = .recurring ∧ recurringRuleApplies r day = true ∧
      recurringSlotApplies r day slot.time = true) := by
    rintro ⟨ha, hb, hc⟩
    simp [ruleMatchCond, ha, hb, hc] at h
  simp only [applyRuleStep, if_neg h1, if_neg h2]

theorem foldl_applyRuleStep_no_match (day ss se : Nat) (rs : List AvailabilityRule)
    (slot : TimeSlot)
    (h : ∀ r ∈ rs, ruleMatchCond r day ss se slot.time = false) :
    rs.foldl (applyRuleStep day ss se) slot = slot := by
  induction rs with
  | nil => rfl
  | cons r rs ih =>
    rw [List.foldl_cons, applyRuleStep_of_not_applies day ss se slot r
      (h r (List.mem_cons_self r rs))]
    exact ih fun t ht => h t (List.mem_cons_of_mem r ht)

theorem resolveDay_slots (rules : List AvailabilityRule) (sessions : List Session)
    (day : Nat) :
    (resolveDay rules sessions day).slots =
      (List.range 48).map (resolveSlot rules sessions day) := by
  simp only [resolveDay, generateDaySlots, List.map_map]
  rfl

theorem resolveDay_slots_get? (rules : List AvailabilityRule) (sessions : List Session)
    (day i : Nat) (hi : i < 48) :
    (resolveDay rules sessions day).slots.get? i =
      some (resolveSlot rules sessions day i) := by
  rw [resolveDay_slots, List.get?_map, List.get?_range hi, Option.map_some']

theorem resolveSlot_datetime (rules : List AvailabilityRule) (sessions : List Session)
    (day i : Nat) :
    (resolveSlot rules sessions day i).datetime = 1440 * day + 30 * i := by
  simp only [resolveSlot, applySessions_datetime, foldl_applyRuleStep_datetime]
  rfl

theorem resolveSlot_time (rules : List AvailabilityRule) (sessions : List Session)
    (day i : Nat) :
    (resolveSlot rules sessions day i).time = formatHHmm (30 * i) := by
  simp only [resolveSlot, applySessions_time, foldl_applyRuleStep_time]
  rfl

theorem calculateAvailability_get? (rules : List AvailabilityRule)
    (sessions : List Session) (sd ed k : Nat)
    (hk : k < ed / 1440 + 1 - sd / 1440) :
    (calculateAvailability rules sessions sd ed).get? k =
      some (resolveDay rules sessions (sd / 1440 + k)) := by
  simp only [calculateAvailability]
  rw [List.get?_map, List.get?_range hk, Option.map_some']

theorem mem_calculateAvailability (rules : List AvailabilityRule)
    (sessions : List Session) (sd ed : Nat) (dayAv : DayAvailability) :
    dayAv ∈ calculateAvailability rules sessions sd ed ↔
      ∃ d, sd / 1440 ≤ d ∧ d ≤ ed / 1440 ∧ dayAv = resolveDay rules sessions d := by
  simp only [calculateAvailability, List.mem_map, List.mem_range]
  constructor
  · rintro ⟨k, hk, rfl⟩
    exact ⟨sd / 1440 + k, Nat.le_add_right _ _, by omega, rfl⟩
  · rintro ⟨d, hsd, hed, rfl⟩
    exact ⟨d - sd / 1440, by omega, by rw [Nat.add_sub_cancel' hsd]⟩

/-! ### Lemmas about the summary aggregator -/

theorem bucketList_pushBucket (s : AvailabilitySummary) (b' b : Bucket) (name : String) :
    (pushBucket s b' name).bucketList b =
      if b' = b then s.bucketList b ++ [name] else s.bucketList b := by
  cases b' <;> cases b <;> simp [pushBucket, AvailabilitySummary.bucketList]

theorem mem_bucket_foldl_mono (td : String) (sm em : Nat)
    (entries : List (String × List DayAvailability)) :
    ∀ (acc : AvailabilitySummary) (b : Bucket) (name : String),
      name ∈ acc.bucketList b →
      name ∈ ((entries.foldl
        (fun s e => pushBucket s (classifyEngineer e.2 td sm em) e.1) acc).bucketList b) := by
  induction entries with
  | nil => exact fun acc b name h => h
  | cons e es ih =>
    intro acc b name h
    rw [List.foldl_cons]
    apply ih
    rw [bucketList_pushBucket]
    split
    · exact List.mem_append_left _ h
    · exact h

theorem mem_bucket_foldl_of_entry (td : String) (sm em : Nat)
    (entries : List (String × List DayAvailability)) :
    ∀ (acc : AvailabilitySummary) (name : String) (days : List DayAvailability),
      (name, days) ∈ entries →
      name ∈ ((entries.foldl
        (fun s e => pushBucket s (classifyEngineer e.2 td sm em) e.1) acc).bucketList
          (classifyEngineer days td sm em)) := by
  induction entries with
  | nil => intro acc name days h; simp at h
  | cons e es ih =>
    intro acc name days h
    rw [List.foldl_cons]
    rcases List.mem_cons.mp h with heq | hmem
    · rw [← heq]
      apply mem_bucket_foldl_mono
      rw [bucketList_pushBucket, if_pos rfl]
      exact List.mem_append_right _ (List.mem_singleton_self name)
    · exact ih _ name days hmem

theorem count_allNames_pushBucket (s : AvailabilitySummary) (b : Bucket)
    (name a : String) :
    ((allNames (pushBucket s b name)).count a) =
      (allNames s).count a + ([name] : List String).count a := by
  cases b <;>
    simp [pushBucket, allNames, List.count_append, List.count_cons,
      List.count_singleton] <;>
    omega

theorem count_allNames_foldl (td : String) (sm em : Nat)
    (entries : List (String × List DayAvailability)) :
    ∀ (acc : AvailabilitySummary) (a : String),
      ((allNames (entries.foldl
        (fun s e => pushBucket s (classifyEngineer e.2 td sm em) e.1) acc)).count a) =
      (allNames acc).count a + (entries.map Prod.fst).count a := by
  induction entries with
  | nil => simp
  | cons e es ih =>
    intro acc a
    rw [List.foldl_cons, ih, count_allNames_pushBucket, List.map_cons]
    simp [List.count_cons]
    omega

theorem contains_eq_true_iff (l : List SlotStatus) (x : SlotStatus) :
    l.contains x = true ↔ ∃ s ∈ l, s = x :=
  List.elem_iff.trans ⟨fun h => ⟨x, h, rfl⟩, fun ⟨_, hs, he⟩ => he ▸ hs⟩

theorem any_eq_status_iff (l : List SlotStatus) (x : SlotStatus) :
    (l.any (fun s => decide (s = x)) = true) ↔ ∃ s ∈ l, s = x := by
  simp [List.any_eq_true]

theorem all_eq_status_iff (l : List SlotStatus) (x : SlotStatus) :
    (l.all (fun s => decide (s = x)) = true) ↔ ∀ s ∈ l, s = x := by
  simp [List.all_eq_true]

theorem classifyEngineer_eq_specClassify (days : List DayAvailability)
    (td st et : String) :
    classifyEngineer days td (timeToMinutes st) (timeToMinutes et) =
      specClassify days td st et := by
  unfold classifyEngineer specClassify specPrecedence
  cases hfind : days.find? (fun d => d.date = td) with
  | none => rfl
  | some targetDay =>
    have hfilter : targetDay.slots.filter (fun slot =>
        decide (timeToMinutes slot.time ≥ timeToMinutes st) &&
        decide (timeToMinutes slot.time < timeToMinutes et)) =
        targetDay.slots.filter (fun slot =>
        decide (timeToMinutes st ≤ timeToMinutes slot.time ∧
          timeToMinutes slot.time < timeToMinutes et)) := by
      apply List.filter_congr
      intro x _
      by_cases h1 : timeToMinutes st ≤ timeToMinutes x.time <;>
        by_cases h2 : timeToMinutes x.time < timeToMinutes et <;>
        simp [ge_iff_le, h1, h2]
    simp only [hfilter]
    set L := targetDay.slots.filter (fun slot =>
        decide (timeToMinutes st ≤ timeToMinutes slot.time ∧
          timeToMinutes slot.time < timeToMinutes et)) with hL
    by_cases hemp : L = []
    · simp [hemp, List.isEmpty_iff]
    · have hne : L.isEmpty = false := by
        rw [← Bool.not_eq_true, List.isEmpty_iff]
        exact hemp
      simp only [hne, Bool.false_eq_true, if_false, if_neg hemp]
      set sts := L.map (·.status) with hsts
      by_cases h1 : ∃ s ∈ sts, s = SlotStatus.Booked
      · rw [if_pos ((contains_eq_true_iff sts _).mpr h1), if_pos h1]
      · rw [if_neg (fun hc => h1 ((contains_eq_true_iff sts _).mp hc)), if_neg h1]
        by_cases h2 : ∃ s ∈ sts, s = SlotStatus.Unavailable
        · rw [if_pos ((contains_eq_true_iff sts _).mpr h2), if_pos h2]
        · rw [if_neg (fun hc => h2 ((contains_eq_true_iff sts _).mp hc)), if_neg h2]
          by_cases h3 : ∃ s ∈ sts, s = SlotStatus.Blank
          · rw [if_pos ((any_eq_status_iff sts _).mpr h3), if_pos h3]
            by_cases h4 : ∀ s ∈ sts, s = SlotStatus.Blank
            · rw [if_pos ((all_eq_status_iff sts _).mpr h4), if_pos h4]
            · rw [if_neg (fun hc => h4 ((all_eq_status_iff sts _).mp hc)), if_neg h4]
              by_cases h5 : ∃ s ∈ sts, s = SlotStatus.Maybe
              · rw [if_pos ((contains_eq_true_iff sts _).mpr h5), if_pos h5]
              · rw [if_neg (fun hc => h5 ((contains_eq_true_iff sts _).mp hc)), if_neg h5]
                by_cases h6 : ∃ s ∈ sts, s = SlotStatus.Available
                · rw [if_pos ((contains_eq_true_iff sts _).mpr h6), if_pos h6]
                · rw [if_neg (fun hc => h6 ((contains_eq_true_iff sts _).mp hc)),
                    if_neg h6]
          · rw [if_neg (fun hc => h3 ((any_eq_status_iff sts _).mp hc)), if_neg h3]
            by_cases h5 : ∃ s ∈ sts, s = SlotStatus.Maybe
            · rw [if_pos ((contains_eq_true_iff sts _).mpr h5), if_pos h5]
            · rw [if_neg (fun hc => h5 ((contains_eq_true_iff sts _).mp hc)), if_neg h5]
              by_cases h6 : ∀ s ∈ sts, s = SlotStatus.Available
              · rw [if_pos ((all_eq_status_iff sts _).mpr h6), if_pos h6]
              · rw [if_neg (fun hc => h6 ((all_eq_status_iff sts _).mp hc)), if_neg h6]

theorem getAvailabilitySummary_eq_foldl (entries : List (String × List DayAvailability))
    (td st et : String) :
    getAvailabilitySummary entries td st et =
      entries.foldl
        (fun s e =>
          pushBucket s (classifyEngineer e.2 td (timeToMinutes st) (timeToMinutes et)) e.1)
        {} := rfl

/-! ### Further structural lemmas -/

theorem resolveDay_slots_length (rules : List AvailabilityRule)
    (sessions : List Session) (day : Nat) :
    (resolveDay rules sessions day).slots.length = 48 := by
  rw [resolveDay_slots, List.length_map, List.length_range]

theorem resolveDay_slot_times (rules : List AvailabilityRule)
    (sessions : List Session) (day : Nat) :
    (resolveDay rules sessions day).slots.map (·.time) = canonicalSlotTimes := by
  rw [resolveDay_slots, List.map_map]
  have h : ((fun s : TimeSlot => s.time) ∘ resolveSlot rules sessions day) =
      fun i => formatHHmm (30 * i) :=
    funext fun i => resolveSlot_time rules sessions day i
  rw [h]
  decide

theorem calculateAvailability_single_day (rules : List AvailabilityRule)
    (sessions : List Session) (day : Nat) :
    calculateAvailability rules sessions (1440 * day) (1440 * day) =
      [resolveDay rules sessions day] := by
  simp only [calculateAvailability]
  have h : 1440 * day / 1440 = day := Nat.mul_div_cancel_left day (by norm_num)
  rw [h]
  have h2 : day + 1 - day = 1 := by omega
  rw [h2]
  have h3 : List.range 1 = [0] := rfl
  rw [h3]
  simp

theorem sortRules_pair_first (R1 R2 : AvailabilityRule)
    (h : R1.updatedAt < R2.updatedAt) : sortRules [R1, R2] = [R1, R2] := by
  simp [sortRules, insertByUpdatedAt, Nat.le_of_lt h]

theorem sortRules_pair_second (R1 R2 : AvailabilityRule)
    (h : R1.updatedAt < R2.updatedAt) : sortRules [R2, R1] = [R1, R2] := by
  simp [sortRules, insertByUpdatedAt, Nat.not_le.mpr h]

theorem sorted_insertByUpdatedAt (r : AvailabilityRule) (l : List AvailabilityRule)
    (h : l.Pairwise (fun a b => a.updatedAt ≤ b.updatedAt)) :
    (insertByUpdatedAt r l).Pairwise (fun a b => a.updatedAt ≤ b.updatedAt) := by
  induction l with
  | nil => simp [insertByUpdatedAt]
  | cons x xs ih =>
    rw [List.pairwise_cons] at h
    obtain ⟨hx, hxs⟩ := h
    simp only [insertByUpdatedAt]
    split
    · next hle =>
      rw [List.pairwise_cons]
      refine ⟨?_, List.pairwise_cons.mpr ⟨hx, hxs⟩⟩
      intro b hb
      rcases List.mem_cons.mp hb with rfl | hb
      · exact hle
      · exact Nat.le_trans hle (hx b hb)
    · next hgt =>
      rw [List.pairwise_cons]
      refine ⟨?_, ih hxs⟩
      intro b hb
      rcases (mem_insertByUpdatedAt b r xs).mp hb with rfl | hb
      · exact Nat.le_of_lt (Nat.lt_of_not_le hgt)
      · exact hx b hb

theorem sorted_sortRules (l : List AvailabilityRule) :
    (sortRules l).Pairwise (fun a b => a.updatedAt ≤ b.updatedAt) := by
  induction l with
  | nil => simp [sortRules]
  | cons x xs ih => exact sorted_insertByUpdatedAt x (sortRules xs) ih

theorem foldl_strict_latest (day ss se : Nat) (t : String)
    (L : List AvailabilityRule) (slot : TimeSlot) (R2 : AvailabilityRule)
    (ht : slot.time = t)
    (hsorted : L.Pairwise (fun a b => a.updatedAt ≤ b.updatedAt))
    (hmem : R2 ∈ L) (happ : ruleMatchCond R2 day ss se t = true)
    (hmax : ∀ r ∈ L, ruleMatchCond r day ss se t = true →
      r = R2 ∨ r.updatedAt < R2.updatedAt) :
    L.foldl (applyRuleStep day ss se) slot =
      { slot with status := R2.status.toSlot, ruleId := some R2.id } := by
  induction L generalizing slot with
  | nil => cases hmem
  | cons r L' ih =>
    rw [List.pairwise_cons] at hsorted
    obtain ⟨hhead, htail⟩ := hsorted
    rw [List.foldl_cons]
    have htime : (applyRuleStep day ss se slot r).time = t := by
      rw [applyRuleStep_time, ht]
    by_cases hany : ∃ r' ∈ L', ruleMatchCond r' day ss se t = true
    · -- the tail still contains an applicable rule; R2 must be in the tail
      have hmem' : R2 ∈ L' := by
        rcases List.mem_cons.mp hmem with rfl | hmem'
        · obtain ⟨r', hr', happ'⟩ := hany
          rcases hmax r' (List.mem_cons_of_mem R2 hr') happ' with rfl | hlt
          · exact hr'
          · exact absurd (hhead r' hr') (Nat.not_le.mpr hlt)
        · exact hmem'
      have hres := ih (applyRuleStep day ss se slot r) htime htail hmem'
        (fun r' hr' ha => hmax r' (List.mem_cons_of_mem r hr') ha)
      rw [hres, applyRuleStep_time, applyRuleStep_datetime, applyRuleStep_sessionId]
    · -- no applicable rule in the tail, so r itself is R2 and the fold stops changing
      have hmemr : R2 = r := by
        rcases List.mem_cons.mp hmem with rfl | hmem'
        · rfl
        · exact absurd ⟨R2, hmem', happ⟩ hany
      subst hmemr
      have hnomatch : ∀ r' ∈ L',
          ruleMatchCond r' day ss se ((applyRuleStep day ss se slot R2).time) = false := by
        intro r' hr'
        rw [htime]
        by_contra hc
        exact hany ⟨r', hr', Bool.of_not_eq_false hc⟩
      rw [foldl_applyRuleStep_no_match day ss se L' _ hnomatch]
      have happs : ruleMatchCond R2 day ss se slot.time = true := by rw [ht]; exact happ
      exact applyRuleStep_of_applies day ss se slot R2 happs

theorem timeToMinutes_formatHHmm (i : Nat) (hi : i < 48) :
    timeToMinutes (formatHHmm (30 * i)) = 30 * i := by
  have h : ∀ j < 48, timeToMinutes (formatHHmm (30 * j)) = 30 * j := by decide
  exact h i hi

/-! ### Claim theorems -/

/-- C5. For every pair of dates with `startDate ≤ endDate`,
`calculateAvailability` returns one `DayAvailability` per calendar day
from the start day through the end day inclusive, in date order (entry
`k` is day `startDay + k`); each returned day holds exactly 48 slots at
contiguous 30-minute boundaries starting at 00:00, each labelled with
the zero-padded `"HH:mm"` time of its boundary.  In particular a
one-day range yields exactly one `DayAvailability`. -/
theorem calculateAvailability_day_and_slot_shape (rules : List AvailabilityRule)
    (sessions : List Session) (startDate endDate : Nat)
    (h : startDate ≤ endDate) :
    (calculateAvailability rules sessions startDate endDate).length =
      endDate / 1440 - startDate / 1440 + 1 ∧
    ∀ k day,
      (calculateAvailability rules sessions startDate endDate).get? k = some day →
      day.date = formatDate (startDate / 1440 + k) ∧
      day.slots.length = 48 ∧
      day.slots.map (·.time) = canonicalSlotTimes ∧
      ∀ i slot, day.slots.get? i = some slot →
        slot.datetime = 1440 * (startDate / 1440 + k) + 30 * i := by
  have hdiv : startDate / 1440 ≤ endDate / 1440 := Nat.div_le_div_right h
  constructor
  · simp only [calculateAvailability, List.length_map, List.length_range]
    omega
  · intro k day hk
    by_cases hk' : k < endDate / 1440 + 1 - startDate / 1440
    · rw [calculateAvailability_get? rules sessions _ _ k hk'] at hk
      injection hk with hk
      subst hk
      refine ⟨rfl, resolveDay_slots_length _ _ _, resolveDay_slot_times _ _ _, ?_⟩
      intro i slot hslot
      by_cases hi : i < 48
      · rw [resolveDay_slots_get? _ _ _ i hi] at hslot
        injection hslot with hslot
        subst hslot
        exact resolveSlot_datetime _ _ _ _
      · rw [List.get?_eq_none.mpr (by rw [resolveDay_slots_length]; omega)] at hslot
        cases hslot
    · have hnone : (calculateAvailability rules sessions startDate endDate).get? k = none := by
        apply List.get?_eq_none.mpr
        simp only [calculateAvailability, List.length_map, List.length_range]
        omega
      rw [hnone] at hk
      cases hk

/-- Witness for C5: a one-day range yields exactly one day record. -/
theorem calculateAvailability_day_and_slot_shape_witness :
    (0 : Nat) ≤ 0 ∧ (calculateAvailability [] [] 0 0).length = 1 :=
  ⟨Nat.le_refl 0,
   (calculateAvailability_day_and_slot_shape [] [] 0 0 (Nat.le_refl 0)).1⟩

/-- C1. For two rules both applicable to a slot of a resolved day with
`R1.updatedAt < R2.updatedAt`, `calculateAvailability` assigns the slot
`R2`'s status and `R2`'s id, whichever order the two rules appear in the
input array and whatever their rule types; more generally, for any input
array in which `R2` is applicable and strictly more recently updated
than every other applicable rule, the slot gets `R2`'s status and id. -/
theorem recency_latest_rule_wins (R1 R2 : AvailabilityRule) (day i : Nat)
    (hi : i < 48) (hu : R1.updatedAt < R2.updatedAt)
    (h1 : ruleAppliesToSlot R1 day i = true)
    (h2 : ruleAppliesToSlot R2 day i = true)
    (rules : List AvailabilityRule)
    (horder : rules = [R1, R2] ∨ rules = [R2, R1] ∨
      (R2 ∈ rules ∧ ∀ r ∈ rules, ruleAppliesToSlot r day i = true →
        r = R2 ∨ r.updatedAt < R2.updatedAt)) :
    ∃ dayAv,
      calculateAvailability rules [] (1440 * day) (1440 * day) = [dayAv] ∧
      ∃ slot, dayAv.slots.get? i = some slot ∧
        slot.status = R2.status.toSlot ∧ slot.ruleId = some R2.id := by
  have hpair : ∀ rs : List AvailabilityRule, rs = [R1, R2] ∨ rs = [R2, R1] →
      R2 ∈ rs ∧ ∀ r ∈ rs, ruleAppliesToSlot r day i = true →
        r = R2 ∨ r.updatedAt < R2.updatedAt := by
    rintro rs (rfl | rfl) <;>
      refine ⟨by simp, ?_⟩ <;>
      · intro r hr _
        rcases List.mem_cons.mp hr with rfl | hr
        · first
          | exact Or.inr hu
          | exact Or.inl rfl
        · rcases List.mem_cons.mp hr with rfl | hr
          · first
            | exact Or.inr hu
            | exact Or.inl rfl
          · cases hr
  have hgen : R2 ∈ rules ∧ ∀ r ∈ rules, ruleAppliesToSlot r day i = true →
      r = R2 ∨ r.updatedAt < R2.updatedAt := by
    rcases horder with h | h | h
    · exact hpair rules (Or.inl h)
    · exact hpair rules (Or.inr h)
    · exact h
  obtain ⟨hmem, hmax⟩ := hgen
  refine ⟨resolveDay rules [] day, calculateAvailability_single_day rules [] day, ?_⟩
  rw [resolveDay_slots_get? rules [] day i hi]
  refine ⟨_, rfl, ?_⟩
  unfold resolveSlot
  rw [foldl_strict_latest day (1440 * day + 30 * i) (1440 * day + 30 * i + 30)
    (formatHHmm (30 * i)) (sortRules rules) (baseSlot day i) R2 rfl
    (sorted_sortRules rules) ((mem_sortRules R2 rules).mpr hmem) h2
    (fun r hr ha => hmax r ((mem_sortRules r rules).mp hr) ha)]
  exact ⟨rfl, rfl⟩

/-- Witness for C1: a one-time rule and a later-updated recurring rule
both applicable to slot 0 of day 0 (a Thursday); the recurring rule's
status and id win in both input orders' canonical instance. -/
theorem recency_latest_rule_wins_witness :
    ((0 : Nat) < 48 ∧ wRuleOneTime.updatedAt < wRuleRecurring.updatedAt ∧
      ruleAppliesToSlot wRuleOneTime 0 0 = true ∧
      ruleAppliesToSlot wRuleRecurring 0 0 = true) ∧
    ∃ dayAv,
      calculateAvailability [wRuleOneTime, wRuleRecurring] [] (1440 * 0) (1440 * 0) =
        [dayAv] ∧
      ∃ slot, dayAv.slots.get? 0 = some slot ∧
        slot.status = wRuleRecurring.status.toSlot ∧
        slot.ruleId = some wRuleRecurring.id :=
  ⟨⟨by decide, by decide, by decide, by decide⟩,
   recency_latest_rule_wins wRuleOneTime wRuleRecurring 0 0 (by decide) (by decide)
     (by decide) (by decide) [wRuleOneTime, wRuleRecurring] (Or.inl rfl)⟩

/-- C3. Any slot of a resolved day whose interval overlaps a session of
the input resolves to `Booked` with a covering session's id, regardless
of the rules. -/
theorem session_overlay_forces_booked (rules : List AvailabilityRule)
    (sessions : List Session) (sd ed : Nat) (S : Session) (hS : S ∈ sessions)
    (dayAv : DayAvailability)
    (hday : dayAv ∈ calculateAvailability rules sessions sd ed)
    (slot : TimeSlot) (hslot : slot ∈ dayAv.slots)
    (hcov : sessionCoversSlot S slot.datetime (slot.datetime + 30) = true) :
    slot.status = .Booked ∧
    ∃ s' ∈ sessions,
      sessionCoversSlot s' slot.datetime (slot.datetime + 30) = true ∧
      slot.sessionId = some s'.id := by
  obtain ⟨d, -, -, rfl⟩ := (mem_calculateAvailability rules sessions sd ed dayAv).mp hday
  rw [resolveDay_slots] at hslot
  obtain ⟨i, hi, rfl⟩ := List.mem_map.mp hslot
  have hi48 : i < 48 := List.mem_range.mp hi
  rw [resolveSlot_datetime rules sessions d i] at hcov ⊢
  unfold resolveSlot
  obtain ⟨hst, s', hs', hcov', hsid⟩ :=
    applySessions_of_covered (1440 * d + 30 * i) (1440 * d + 30 * i + 30)
      ((sortRules rules).foldl
        (applyRuleStep d (1440 * d + 30 * i) (1440 * d + 30 * i + 30)) (baseSlot d i))
      sessions ⟨S, hS, hcov⟩
  exact ⟨hst, s', hs', hcov', hsid⟩

/-- Witness for C3: a session covering 00:15-00:45 books slot 00:00-00:30
of the resolved day. -/
theorem session_overlay_forces_booked_witness :
    (wSession ∈ [wSession] ∧
      resolveDay [] [wSession] 0 ∈ calculateAvailability [] [wSession] 0 0 ∧
      wBookedSlot ∈ (resolveDay [] [wSession] 0).slots ∧
      sessionCoversSlot wSession wBookedSlot.datetime (wBookedSlot.datetime + 30) = true) ∧
    (wBookedSlot.status = .Booked ∧
      ∃ s' ∈ [wSession],
        sessionCoversSlot s' wBookedSlot.datetime (wBookedSlot.datetime + 30) = true ∧
        wBookedSlot.sessionId = some s'.id) :=
  ⟨⟨by decide, by decide, by decide, by decide⟩,
   session_overlay_forces_booked [] [wSession] 0 0 wSession (by decide)
     (resolveDay [] [wSession] 0) (by decide) wBookedSlot (by decide) (by decide)⟩

/-- C7. A slot of a resolved day to which no input rule applies and which
no session overlaps keeps its freshly generated state: status `Blank`,
no `ruleId`, no `sessionId`. -/
theorem untouched_slot_remains_blank (rules : List AvailabilityRule)
    (sessions : List Session) (sd ed : Nat) (dayAv : DayAvailability)
    (hday : dayAv ∈ calculateAvailability rules sessions sd ed) :
    ∃ d, sd / 1440 ≤ d ∧ d ≤ ed / 1440 ∧ dayAv = resolveDay rules sessions d ∧
      ∀ i slot, dayAv.slots.get? i = some slot →
        (∀ r ∈ rules, ruleAppliesToSlot r d i = false) →
        (∀ s ∈ sessions,
          sessionCoversSlot s (1440 * d + 30 * i) (1440 * d + 30 * i + 30) = false) →
        slot.status = .Blank ∧ slot.ruleId = none ∧ slot.sessionId = none := by
  obtain ⟨d, hd1, hd2, rfl⟩ := (mem_calculateAvailability rules sessions sd ed dayAv).mp hday
  refine ⟨d, hd1, hd2, rfl, ?_⟩
  intro i slot hget hrules hsess
  have hi : i < 48 := by
    by_contra h48
    rw [List.get?_eq_none.mpr (by rw [resolveDay_slots_length]; omega)] at hget
    cases hget
  rw [resolveDay_slots_get? rules sessions d i hi] at hget
  injection hget with hget
  subst hget
  unfold resolveSlot
  rw [foldl_applyRuleStep_no_match d (1440 * d + 30 * i) (1440 * d + 30 * i + 30)
    (sortRules rules) (baseSlot d i)
    (fun r hr => hrules r ((mem_sortRules r rules).mp hr))]
  rw [applySessions_of_not_covered (1440 * d + 30 * i) (1440 * d + 30 * i + 30)
    (baseSlot d i) sessions hsess]
  exact ⟨rfl, rfl, rfl⟩

/-- Witness for C7: with no rules and no sessions, every slot of the
resolved day is untouched. -/
theorem untouched_slot_remains_blank_witness :
    wEmptyDay ∈ calculateAvailability [] [] 0 0 ∧
    ∃ d, 0 / 1440 ≤ d ∧ d ≤ 0 / 1440 ∧ wEmptyDay = resolveDay [] [] d ∧
      ∀ i slot, wEmptyDay.slots.get? i = some slot →
        (∀ r ∈ ([] : List AvailabilityRule), ruleAppliesToSlot r d i = false) →
        (∀ s ∈ ([] : List Session),
          sessionCoversSlot s (1440 * d + 30 * i) (1440 * d + 30 * i + 30) = false) →
        slot.status = .Blank ∧ slot.ruleId = none ∧ slot.sessionId = none :=
  ⟨by decide, untouched_slot_remains_blank [] [] 0 0 wEmptyDay (by decide)⟩

/-- C10. A recurring rule whose `endTime` parses to the same minute
count as its `startTime` takes the midnight-wrap branch and its slot-time
test holds for every slot time; consequently, on any day passing the
weekday and effective-date checks, resolving that day against the rule
alone marks all 48 slots with the rule's status and id — equal start and
end denote full-day coverage, not an empty interval. -/
theorem equal_start_end_full_day_coverage (r : AvailabilityRule)
    (st et : String) (hst : r.startTime = some st) (het : r.endTime = some et)
    (hstne : st ≠ "") (hetne : et ≠ "")
    (heq : timeToMinutes et = timeToMinutes st) :
    (∀ day slotTime, recurringSlotApplies r day slotTime = true) ∧
    ∀ day, recurringRuleApplies r day = true →
      ∃ dayAv,
        calculateAvailability [r] [] (1440 * day) (1440 * day) = [dayAv] ∧
        dayAv.slots.length = 48 ∧
        ∀ slot ∈ dayAv.slots,
          slot.status = r.status.toSlot ∧ slot.ruleId = some r.id := by
  have hall : ∀ day slotTime, recurringSlotApplies r day slotTime = true := by
    intro day slotTime
    unfold recurringSlotApplies
    rw [hst, het]
    dsimp only
    rw [if_neg (by tauto : ¬ (st = "" ∨ et = ""))]
    rw [if_pos (by rw [heq] : timeToMinutes et ≤ timeToMinutes st)]
    simp only [ge_iff_le, Bool.or_eq_true, decide_eq_true_eq]
    omega
  refine ⟨hall, ?_⟩
  intro day happ
  have hrt : r.ruleType = .recurring := by
    by_contra hne
    unfold recurringRuleApplies at happ
    rw [if_pos hne] at happ
    cases happ
  refine ⟨resolveDay [r] [] day, calculateAvailability_single_day [r] [] day,
    resolveDay_slots_length [r] [] day, ?_⟩
  intro slot hslot
  rw [resolveDay_slots] at hslot
  obtain ⟨i, hi, rfl⟩ := List.mem_map.mp hslot
  unfold resolveSlot
  have hsort : sortRules [r] = [r] := rfl
  rw [hsort, List.foldl_cons, List.foldl_nil]
  have happl : ruleMatchCond r day (1440 * day + 30 * i) (1440 * day + 30 * i + 30)
      ((baseSlot day i).time) = true := by
    unfold ruleMatchCond
    have h1 : decide (r.ruleType = RuleType.one_time) = false :=
      decide_eq_false (by rw [hrt]; intro hc; cases hc)
    have h2 : decide (r.ruleType = RuleType.recurring) = true :=
      decide_eq_true hrt
    rw [h1, h2, happ, hall day ((baseSlot day i).time)]
    rfl
  have e1 : applyRuleStep day (1440 * day + 30 * i) (1440 * day + 30 * i + 30)
      (baseSlot day i) r =
      { baseSlot day i with status := r.status.toSlot, ruleId := some r.id } :=
    applyRuleStep_of_applies day (1440 * day + 30 * i) (1440 * day + 30 * i + 30)
      (baseSlot day i) r happl
  rw [e1]
  exact ⟨rfl, rfl⟩

/-- Witness for C10: a Monday 09:00-09:00 rule covers all of a Monday. -/
theorem equal_start_end_full_day_coverage_witness :
    (wRuleFullDay.startTime = some "09:00" ∧ wRuleFullDay.endTime = some "09:00" ∧
      timeToMinutes "09:00" = timeToMinutes "09:00" ∧
      recurringRuleApplies wRuleFullDay 4 = true) ∧
    ((∀ day slotTime, recurringSlotApplies wRuleFullDay day slotTime = true) ∧
      ∀ day, recurringRuleApplies wRuleFullDay day = true →
        ∃ dayAv,
          calculateAvailability [wRuleFullDay] [] (1440 * day) (1440 * day) = [dayAv] ∧
          dayAv.slots.length = 48 ∧
          ∀ slot ∈ dayAv.slots,
            slot.status = wRuleFullDay.status.toSlot ∧
            slot.ruleId = some wRuleFullDay.id) :=
  ⟨⟨rfl, rfl, rfl, by decide⟩,
   equal_start_end_full_day_coverage wRuleFullDay "09:00" "09:00" rfl rfl
     (by decide) (by decide) rfl⟩

/-- Counterexample to C4 as stated: `wRuleOvernight` is a recurring rule
22:00-04:00 with `recurrenceDays = ["Mon"]`; day 4 (1970-01-05) is a
Monday, day 5 the following Tuesday.  The claim asserts resolution
matches the 00:00-03:30 slots of the day following D, but the rule does
not apply to slot 00:00 of day 5 and resolving day 5 leaves that slot
`Blank` with no rule id; the rule does, by contrast, apply to Monday's
own 00:00 slot. -/
theorem overnight_next_day_counterexample :
    wRuleOvernight.startTime = some "22:00" ∧
    wRuleOvernight.endTime = some "04:00" ∧
    wRuleOvernight.recurrenceDays = some ["Mon"] ∧
    dayMap (getDayOfWeek 4) = "Mon" ∧ dayMap (getDayOfWeek 5) = "Tue" ∧
    ruleAppliesToSlot wRuleOvernight 5 0 = false ∧
    ruleAppliesToSlot wRuleOvernight 4 0 = true ∧
    ((calculateAvailability [wRuleOvernight] [] (1440 * 5) (1440 * 5)).get? 0).map
        (fun d => d.slots.get? 0) =
      some (some { time := "00:00", datetime := 1440 * 5, status := SlotStatus.Blank }) := by
  decide

/-- C4 as amended: for a recurring rule 22:00-04:00, applicability to
slot `i` of a resolved day `d` is exactly "day `d` itself passes the
weekday and effective-date checks, and the slot lies in 22:00-23:30
(`44 ≤ i`) or in 00:00-03:30 (`i < 8`)".  The early-morning portion
therefore lands on each day whose own weekday is in `recurrenceDays`
(including D itself, and in particular the next occurrence of D's
weekday), never on the following calendar day as such. -/
theorem overnight_rule_applicability (r : AvailabilityRule)
    (hrt : r.ruleType = .recurring)
    (hst : r.startTime = some "22:00") (het : r.endTime = some "04:00")
    (day i : Nat) (hi : i < 48) :
    ruleAppliesToSlot r day i =
      (recurringRuleApplies r day && (decide (44 ≤ i) || decide (i < 8))) := by
  unfold ruleAppliesToSlot ruleMatchCond
  have h1 : decide (r.ruleType = RuleType.one_time) = false :=
    decide_eq_false (by rw [hrt]; intro hc; cases hc)
  have h2 : decide (r.ruleType = RuleType.recurring) = true := decide_eq_true hrt
  rw [h1, h2]
  simp only [Bool.false_and, Bool.false_or, Bool.true_and]
  have hslot : recurringSlotApplies r day (formatHHmm (30 * i)) =
      (decide (44 ≤ i) || decide (i < 8)) := by
    unfold recurringSlotApplies
    rw [hst, het]
    dsimp only
    rw [if_neg (by simp : ¬ (("22:00" : String) = "" ∨ ("04:00" : String) = ""))]
    have ha : timeToMinutes "22:00" = 1320 := by decide
    have hb : timeToMinutes "04:00" = 240 := by decide
    rw [ha, hb, if_pos (by norm_num : (240 : Nat) ≤ 1320),
      timeToMinutes_formatHHmm i hi]
    have hc : decide (30 * i ≥ 1320) = decide (44 ≤ i) :=
      decide_eq_decide.mpr (by omega)
    have hd : decide (30 * i < 240) = decide (i < 8) :=
      decide_eq_decide.mpr (by omega)
    rw [hc, hd]
  rw [hslot]

/-- Witness for the amended C4: on the Monday itself (day 4), slot 45
(22:30) is matched. -/
theorem overnight_rule_applicability_witness :
    (wRuleOvernight.ruleType = RuleType.recurring ∧
      wRuleOvernight.startTime = some "22:00" ∧
      wRuleOvernight.endTime = some "04:00" ∧ (45 : Nat) < 48) ∧
    ruleAppliesToSlot wRuleOvernight 4 45 =
      (recurringRuleApplies wRuleOvernight 4 && (decide (44 ≤ 45) || decide (45 < 8))) :=
  ⟨⟨rfl, rfl, rfl, by decide⟩,
   overnight_rule_applicability wRuleOvernight rfl rfl rfl 4 45 (by decide)⟩

/-- C2. `getAvailabilitySummary` classifies every engineer of the input
into the bucket dictated by the exact precedence of §4.3 (formalised by
`specClassify` / `specPrecedence`, evaluated in order with first match
winning); in particular a window whose slots mix `Blank` and `Available`
with no `Maybe`, `Unavailable` or `Booked` slot classifies as
`available`. -/
theorem summary_matches_spec_precedence :
    (∀ (entries : List (String × List DayAvailability)) (td st et : String)
      (name : String) (days : List DayAvailability),
      (name, days) ∈ entries →
      name ∈ (getAvailabilitySummary entries td st et).bucketList
        (specClassify days td st et)) ∧
    ∀ statuses : List SlotStatus, statuses ≠ [] →
      SlotStatus.Booked ∉ statuses → SlotStatus.Unavailable ∉ statuses →
      SlotStatus.Maybe ∉ statuses → SlotStatus.Blank ∈ statuses →
      SlotStatus.Available ∈ statuses →
      specPrecedence statuses = .available := by
  constructor
  · intro entries td st et name days hmem
    rw [getAvailabilitySummary_eq_foldl]
    have h := mem_bucket_foldl_of_entry td (timeToMinutes st) (timeToMinutes et)
      entries {} name days hmem
    rwa [classifyEngineer_eq_specClassify] at h
  · intro statuses hne hB hU hM hBl hA
    unfold specPrecedence
    rw [if_neg (fun hc => hB (by obtain ⟨s, hs, rfl⟩ := hc; exact hs))]
    rw [if_neg (fun hc => hU (by obtain ⟨s, hs, rfl⟩ := hc; exact hs))]
    rw [if_pos ⟨SlotStatus.Blank, hBl, rfl⟩]
    rw [if_neg (fun hall => by cases hall SlotStatus.Available hA)]
    rw [if_neg (fun hc => hM (by obtain ⟨s, hs, rfl⟩ := hc; exact hs))]
    rw [if_pos ⟨SlotStatus.Available, hA, rfl⟩]

/-- Witness for C2: a one-engineer input classified through the spec
precedence, and a concrete Blank+Available mix classifying `available`. -/
theorem summary_matches_spec_precedence_witness :
    (("alice", wSummaryDays) ∈ [("alice", wSummaryDays)] ∧
      "alice" ∈ (getAvailabilitySummary [("alice", wSummaryDays)]
          "1970-01-01" "00:00" "01:00").bucketList
        (specClassify wSummaryDays "1970-01-01" "00:00" "01:00")) ∧
    (([SlotStatus.Blank, SlotStatus.Available] : List SlotStatus) ≠ [] ∧
      specPrecedence [SlotStatus.Blank, SlotStatus.Available] = .available) :=
  ⟨⟨List.mem_singleton_self _,
    summary_matches_spec_precedence.1 [("alice", wSummaryDays)] "1970-01-01"
      "00:00" "01:00" "alice" wSummaryDays (List.mem_singleton_self _)⟩,
   ⟨by decide,
    summary_matches_spec_precedence.2 [SlotStatus.Blank, SlotStatus.Available]
      (by decide) (by decide) (by decide) (by decide) (by decide) (by decide)⟩⟩

/-- C6. `getAvailabilitySummary` places every engineer of the input into
exactly one of the five buckets (the concatenation of the buckets is a
permutation of the input's engineer names), and classifies an engineer
`not_set` whenever no `DayAvailability` with the target date exists in
the engineer's sequence or no slot of the target day falls in
`[startTime, endTime)` by minute-of-day comparison. -/
theorem summary_partition_and_not_set_cases
    (entries : List (String × List DayAvailability)) (td st et : String) :
    (allNames (getAvailabilitySummary entries td st et)).Perm
      (entries.map Prod.fst) ∧
    (∀ name days, (name, days) ∈ entries →
      days.find? (fun d => d.date = td) = none →
      name ∈ (getAvailabilitySummary entries td st et).not_set) ∧
    (∀ name days targetDay, (name, days) ∈ entries →
      days.find? (fun d => d.date = td) = some targetDay →
      targetDay.slots.filter (fun slot =>
        decide (timeToMinutes st ≤ timeToMinutes slot.time ∧
          timeToMinutes slot.time < timeToMinutes et)) = [] →
      name ∈ (getAvailabilitySummary entries td st et).not_set) := by
  refine ⟨?_, ?_, ?_⟩
  · rw [getAvailabilitySummary_eq_foldl]
    apply List.perm_iff_count.mpr
    intro a
    rw [count_allNames_foldl]
    simp [allNames]
  · intro name days hmem hfind
    have h := mem_bucket_foldl_of_entry td (timeToMinutes st) (timeToMinutes et)
      entries {} name days hmem
    have hcls : classifyEngineer days td (timeToMinutes st) (timeToMinutes et) =
        .not_set := by
      unfold classifyEngineer
      rw [hfind]
    rw [hcls] at h
    exact h
  · intro name days targetDay hmem hfind hfilter
    have h := mem_bucket_foldl_of_entry td (timeToMinutes st) (timeToMinutes et)
      entries {} name days hmem
    have hcls : classifyEngineer days td (timeToMinutes st) (timeToMinutes et) =
        .not_set := by
      rw [classifyEngineer_eq_specClassify]
      unfold specClassify
      rw [hfind]
      simp only [hfilter]
      simp
    rw [hcls] at h
    exact h

/-- Witness for C6: an engineer with no day record for the target date
is placed in `not_set`, and the buckets partition the input names. -/
theorem summary_partition_and_not_set_cases_witness :
    (("bob", ([] : List DayAvailability)) ∈
        [("bob", ([] : List DayAvailability))] ∧
      List.find? (fun d => d.date = "2024-01-01") ([] : List DayAvailability) =
        none) ∧
    "bob" ∈ (getAvailabilitySummary [("bob", [])] "2024-01-01" "09:00" "10:00").not_set :=
  ⟨⟨List.mem_singleton_self _, rfl⟩,
   (summary_partition_and_not_set_cases [("bob", [])] "2024-01-01" "09:00"
      "10:00").2.1 "bob" [] (List.mem_singleton_self _) rfl⟩

/-- C8. When the chatbot handler creates a rule, the rule is recurring
exactly when the request carries a non-empty weekday list; otherwise it
is one-time, starting on the request's date, and its end timestamp moves
to the following calendar date precisely when `end_time < start_time`
by lexical string comparison (otherwise both ends fall on the request's
date). -/
theorem chatbot_rule_inference (engineers : List Engineer)
    (body : ChatbotRequest) (rule : NewRule)
    (h : chatbotHandler engineers body = .created rule) :
    (rule.ruleType = .recurring ↔ ∃ ds, body.days = some ds ∧ ds ≠ []) ∧
    (rule.ruleType = .one_time →
      ∃ date st et, body.date = some date ∧ body.start_time = some st ∧
        body.end_time = some et ∧
        rule.startDateTime = some (date ++ "T" ++ st ++ ":00") ∧
        (charListLt et.data st.data = false →
          rule.endDateTime = some (date ++ "T" ++ et ++ ":00")) ∧
        (charListLt et.data st.data = true →
          ∃ d, parseDateStr date = some d ∧
            rule.endDateTime = some (formatDate (d + 1) ++ "T" ++ et ++ ":00"))) := by
  unfold chatbotHandler at h
  by_cases heng : body.engineer = ""
  · rw [if_pos heng] at h
    cases h
  · rw [if_neg heng] at h
    cases hfound : List.find?
        (fun e => decide (lowerStr e.name = lowerStr body.engineer ∨ e.id = body.engineer))
        engineers with
    | none =>
      rw [hfound] at h
      cases h
    | some engineer =>
      rw [hfound] at h
      dsimp only at h
      by_cases hrec :
          (match body.days with
            | none => false
            | some ds => !ds.isEmpty) = true
      · rw [if_pos hrec] at h
        by_cases hval : truthyStr body.start_time = true ∧ truthyStr body.end_time = true
        · rw [if_neg (not_not_intro hval)] at h
          injection h with h
          subst h
          constructor
          · constructor
            · intro _
              cases hdays : body.days with
              | none =>
                rw [hdays] at hrec
                cases hrec
              | some ds =>
                rw [hdays] at hrec
                refine ⟨ds, rfl, ?_⟩
                intro hnil
                subst hnil
                cases hrec
            · intro _
              rfl
          · intro hone
            simp at hone
        · rw [if_pos hval] at h
          cases h
      · rw [if_neg hrec] at h
        by_cases hval : truthyStr body.date = true ∧ truthyStr body.start_time = true ∧
            truthyStr body.end_time = true
        · rw [if_neg (not_not_intro hval)] at h
          cases hdate : body.date with
          | none =>
            rw [hdate] at h
            cases h
          | some date =>
            rw [hdate] at h
            cases hst : body.start_time with
            | none =>
              rw [hst] at h
              cases h
            | some st =>
              rw [hst] at h
              cases het : body.end_time with
              | none =>
                rw [het] at h
                cases h
              | some et =>
                rw [het] at h
                dsimp only at h
                have hpart1 : ∀ ru : NewRule, ru.ruleType = RuleType.one_time →
                    (ru.ruleType = RuleType.recurring ↔
                      ∃ ds, body.days = some ds ∧ ds ≠ []) := by
                  intro ru hru
                  rw [hru]
                  constructor
                  · intro hc
                    cases hc
                  · rintro ⟨ds, hds, hne⟩
                    rw [hds] at hrec
                    refine absurd ?_ hrec
                    cases ds with
                    | nil => exact absurd rfl hne
                    | cons a as => rfl
                by_cases hlt : charListLt et.data st.data = true
                · rw [if_pos hlt] at h
                  cases hparse : parseDateStr date with
                  | none =>
                    rw [hparse] at h
                    cases h
                  | some d =>
                    rw [hparse] at h
                    injection h with h
                    subst h
                    refine ⟨hpart1 _ rfl, ?_⟩
                    intro _
                    refine ⟨date, st, et, rfl, rfl, rfl, rfl, ?_, ?_⟩
                    · intro hfalse
                      rw [hlt] at hfalse
                      cases hfalse
                    · intro _
                      refine ⟨d, hparse, ?_⟩
                      have harith : (1440 * d + 24 * 60) / 1440 = d + 1 := by omega
                      rw [harith]
                · rw [if_neg hlt] at h
                  injection h with h
                  subst h
                  refine ⟨hpart1 _ rfl, ?_⟩
                  intro _
                  refine ⟨date, st, et, rfl, rfl, rfl, rfl, ?_, ?_⟩
                  · intro _
                    rfl
                  · intro htrue
                    exact absurd htrue hlt
        · rw [if_pos hval] at h
          cases h

/-- Witness for C8: an overnight one-time request ("22:00" to "02:00" on
2024-03-10) creates a rule ending on 2024-03-11. -/
theorem chatbot_rule_inference_witness :
    chatbotHandler wEngineers wChatbotOvernight = .created wChatbotOvernightRule ∧
    ((wChatbotOvernightRule.ruleType = .recurring ↔
        ∃ ds, wChatbotOvernight.days = some ds ∧ ds ≠ []) ∧
      (wChatbotOvernightRule.ruleType = .one_time →
        ∃ date st et, wChatbotOvernight.date = some date ∧
          wChatbotOvernight.start_time = some st ∧
          wChatbotOvernight.end_time = some et ∧
          wChatbotOvernightRule.startDateTime = some (date ++ "T" ++ st ++ ":00") ∧
          (charListLt et.data st.data = false →
            wChatbotOvernightRule.endDateTime = some (date ++ "T" ++ et ++ ":00")) ∧
          (charListLt et.data st.data = true →
            ∃ d, parseDateStr date = some d ∧
              wChatbotOvernightRule.endDateTime =
                some (formatDate (d + 1) ++ "T" ++ et ++ ":00")))) :=
  ⟨by decide,
   chatbot_rule_inference wEngineers wChatbotOvernight wChatbotOvernightRule
     (by decide)⟩

end Studiovailable
